import Mathlib

set_option maxHeartbeats 1000000

/- Shallow embedding of src/pdp11.c, a PDP-11 subset instruction-level
   simulator.  C int registers and memory cells are modelled as unbounded
   Int; the source applies its 16-bit masks (and the 0100000 / 0200000
   bit tests) explicitly, which are modelled with emod on the two
   complement representation.  Memory is modelled as a total function
   from word index to value (the C array int mem[32768] with its global
   zero initialisation; the source performs no bounds checks). -/

/-- The 16-bit mask 0177777, as applied by the source at its write-back points. -/
def mask16 (x : Int) : Int := x % 65536

/-- Byte address to word index: the addr >> 1 of the source (arithmetic shift). -/
def wordIdx (a : Int) : Int := a / 2

/-- Bit 15 of the two complement representation, i.e. the test (x & 0100000) as 0/1. -/
def bit15 (x : Int) : Nat := if 32768 ≤ x % 65536 then 1 else 0

/-- Bit 16 of the two complement representation: (x & 0200000) >> 16. -/
def bit16 (x : Int) : Nat := if 65536 ≤ x % 131072 then 1 else 0

/-- Bit 0 of x: the test (x & 0000001) as 0/1. -/
def bit0 (x : Int) : Nat := if x % 2 = 1 then 1 else 0

/-- The zero test used for condition code Z. -/
def zbit (x : Int) : Nat := if x = 0 then 1 else 0

/-- Sign extension of a low byte: offset << 24 >> 24 as the source applies it
    to a value already masked with 0377. -/
def se8 (x : Int) : Int := if 128 ≤ x % 256 then x % 256 - 256 else x % 256

/-- Sign extension from 16 bits: result << 16 >> 16 in the ASR case. -/
def se16 (x : Int) : Int := if 32768 ≤ x % 65536 then x % 65536 - 65536 else x % 65536

/-- The machine state of the simulator: the int reg[8] register file, the
    int mem[32*1024] word memory, the four condition-code bits and the six
    statistics counters.  reg and mem are total functions because the C
    arrays are accessed without bounds checks. -/
structure Machine where
  reg : Int → Int
  mem : Int → Int
  cc_n : Nat
  cc_z : Nat
  cc_v : Nat
  cc_c : Nat
  instr_exec : Nat
  instr_fetch : Nat
  words_read : Nat
  words_written : Nat
  br_exec : Nat
  br_taken : Nat

/-- The addr_phrase struct: mode, register index, resolved address, resolved value. -/
structure AddrPhrase where
  mode : Int
  reg : Int
  addr : Int
  value : Int

/-- The all-zero initial machine (C globals are zero initialised). -/
def zeroMachine : Machine :=
  { reg := fun _ => 0, mem := fun _ => 0,
    cc_n := 0, cc_z := 0, cc_v := 0, cc_c := 0,
    instr_exec := 0, instr_fetch := 0, words_read := 0, words_written := 0,
    br_exec := 0, br_taken := 0 }

/-- Memory as loaded by load_program: the input words fill word indices
    0, 1, 2, ... and the rest of memory stays zero. -/
def memOfList (l : List Int) : Int → Int :=
  fun a => if h : 0 ≤ a ∧ a.toNat < l.length then l.get ⟨a.toNat, h.2⟩ else 0

/-- The machine at the start of main after load_program has read the given words. -/
def initMachine (prog : List Int) : Machine :=
  { zeroMachine with mem := memOfList prog }

/-- get_operand from the source: resolves one addressing mode, mutating the
    machine (register side effects and counters) and filling in addr/value.
    The asserts of the AUTO_INC case are modelled by the none result. -/
def get_operand (m : Machine) (p : AddrPhrase) : Option (Machine × AddrPhrase) :=
  if p.mode = 0 then
    some (m, { p with value := m.reg p.reg, addr := 0 })
  else if p.mode = 1 then
    some ({ m with words_read := m.words_read + 1 },
          { p with addr := m.reg p.reg, value := m.mem (wordIdx (m.reg p.reg)) })
  else if p.mode = 2 then
    let m1 := if p.reg = 7 then { m with instr_fetch := m.instr_fetch + 1 } else m
    let addr := m1.reg p.reg
    if addr < 65536 then
      let value := m1.mem (wordIdx addr)
      if value < 65536 then
        some ({ m1 with reg := Function.update m1.reg p.reg (mask16 (m1.reg p.reg + 2)) },
              { p with addr := addr, value := value })
      else none
    else none
  else if p.mode = 3 then
    let m1 := { m with words_read := m.words_read + 1 }
    let a1 := m1.mem (wordIdx (m1.reg p.reg))
    some ({ m1 with reg := Function.update m1.reg p.reg (m1.reg p.reg + 2) },
          { p with addr := a1, value := m1.mem (wordIdx a1) })
  else if p.mode = 4 then
    let m1 := { m with words_read := m.words_read + 1,
                       reg := Function.update m.reg p.reg (mask16 (m.reg p.reg - 2)) }
    some (m1, { p with addr := m1.reg p.reg, value := m1.mem (wordIdx (m1.reg p.reg)) })
  else if p.mode = 5 then
    let m1 := { m with words_read := m.words_read + 1,
                       reg := Function.update m.reg p.reg (m.reg p.reg - 2) }
    let a1 := m1.mem (wordIdx (m1.reg p.reg))
    some (m1, { p with addr := a1, value := m1.mem (wordIdx a1) })
  else if p.mode = 6 then
    let ind := m.mem (wordIdx (m.reg 7))
    let addr := mask16 (m.reg p.reg + ind)
    let m1 := { m with instr_fetch := m.instr_fetch + 1, words_read := m.words_read + 3,
                       reg := Function.update m.reg 7 (mask16 (m.reg 7 + 2)) }
    some (m1, { p with addr := addr, value := m1.mem (wordIdx addr) })
  else if p.mode = 7 then
    let ind := m.mem (wordIdx (m.reg 7))
    let a0 := mask16 (m.reg p.reg + ind)
    let m1 := { m with instr_fetch := m.instr_fetch + 1, words_read := m.words_read + 3,
                       reg := Function.update m.reg 7 (mask16 (m.reg 7 + 2)) }
    let a1 := m1.mem (wordIdx a0)
    some (m1, { p with addr := a1, value := m1.mem (wordIdx a1) })
  else
    some (m, p)

/-- The MOV case of main, after both operands are resolved. -/
def movExec (m : Machine) (src dst : AddrPhrase) : Machine :=
  let m1 := { m with cc_n := bit15 src.value, cc_z := zbit src.value, cc_v := 0 }
  if dst.mode = 2 then
    { m1 with mem := Function.update m1.mem (wordIdx dst.addr) src.value,
              words_written := m1.words_written + 1 }
  else
    { m1 with reg := Function.update m1.reg dst.reg src.value }

/-- The CMP case of main, after both operands are resolved. -/
def cmpExec (m : Machine) (src dst : AddrPhrase) : Machine :=
  let result0 := src.value - dst.value
  let result := mask16 result0
  { m with cc_c := bit16 result0,
           cc_n := bit15 result, cc_z := zbit result,
           cc_v := if bit15 src.value ≠ bit15 dst.value ∧ bit15 src.value = bit15 result
                   then 1 else 0 }

/-- The ADD case of main, after both operands are resolved. -/
def addExec (m : Machine) (src dst : AddrPhrase) : Machine :=
  let result := mask16 (src.value + dst.value)
  { m with cc_v := if bit15 src.value = bit15 dst.value ∧ bit15 src.value ≠ bit15 result
                   then 1 else 0,
           cc_c := if result < src.value + dst.value then 1 else 0,
           cc_n := bit15 result, cc_z := zbit result,
           reg := Function.update m.reg dst.reg result }

/-- The SUB case of main, after both operands are resolved. -/
def subExec (m : Machine) (src dst : AddrPhrase) : Machine :=
  let result0 := dst.value - src.value
  let result := mask16 result0
  { m with cc_c := bit16 result0,
           cc_n := bit15 result, cc_z := zbit result,
           cc_v := if bit15 src.value ≠ bit15 dst.value ∧ bit15 src.value = bit15 result
                   then 1 else 0,
           reg := Function.update m.reg dst.reg result }

/-- The BR case of main: offset sign-extended from the low byte, target masked. -/
def brExec (m : Machine) (i : Int) : Machine :=
  { m with br_exec := m.br_exec + 1, br_taken := m.br_taken + 1,
           reg := Function.update m.reg 7 (mask16 (m.reg 7 + 2 * se8 (i % 256))) }

/-- The BEQ case of main: offset is the low byte, not sign extended, and the
    new PC is stored without the 16-bit mask. -/
def beqExec (m : Machine) (i : Int) : Machine :=
  let offset := i % 256
  let m1 := { m with br_exec := m.br_exec + 1 }
  if m1.cc_z ≠ 0 then
    { m1 with br_taken := m1.br_taken + 1,
              reg := Function.update m1.reg 7 (m1.reg 7 + 2 * offset) }
  else m1

/-- The BNE case of main: offset sign-extended from the low byte, and the
    new PC is stored without the 16-bit mask. -/
def bneExec (m : Machine) (i : Int) : Machine :=
  let offset := se8 (i % 256)
  let m1 := { m with br_exec := m.br_exec + 1 }
  if m1.cc_z = 0 then
    { m1 with br_taken := m1.br_taken + 1,
              reg := Function.update m1.reg 7 (m1.reg 7 + 2 * offset) }
  else m1

/-- The SOB case of main: the operand register is resolved with forced
    Register mode (which has no machine side effect), decremented without a
    mask, and the branch is taken when the decremented value is nonzero.
    The offset is the low 6 bits put through the byte sign extension. -/
def sobExec (m : Machine) (i : Int) : Machine :=
  let sr := (i / 64) % 8
  let offset := se8 (i % 64)
  let m1 := { m with br_exec := m.br_exec + 1,
                     reg := Function.update m.reg sr (m.reg sr - 1) }
  if m1.reg sr ≠ 0 then
    { m1 with br_taken := m1.br_taken + 1,
              reg := Function.update m1.reg 7 (mask16 (m1.reg 7 - 2 * offset)) }
  else m1

/-- The ASL case of main, after the destination operand is resolved: the
    shifted value is read from the destination register (not from the
    resolved operand value), and the result is written to the register. -/
def aslExec (m : Machine) (dst : AddrPhrase) : Machine :=
  let result := mask16 (2 * m.reg dst.reg)
  let n := bit15 result
  let c := bit15 dst.value
  { m with cc_n := n, cc_z := zbit result, cc_c := c, cc_v := c ^^^ n,
           reg := Function.update m.reg dst.reg result }

/-- The ASR case of main, after the destination operand is resolved: the
    register value is sign-extended from 16 bits, arithmetically shifted
    right, cast back to 16 bits and written to the register. -/
def asrExec (m : Machine) (dst : AddrPhrase) : Machine :=
  let result := mask16 ((se16 (m.reg dst.reg)) / 2)
  let n := bit15 result
  let c := bit0 dst.value
  { m with cc_n := n, cc_z := zbit result, cc_c := c, cc_v := c ^^^ n,
           reg := Function.update m.reg dst.reg result }

/-- Result of one iteration of the main loop. -/
inductive Outcome where
  | ok (m : Machine)
  | halted (m : Machine)
  | badInstr (m : Machine) (fault : Int)
  | assertFail

/-- The machine carried by an outcome. -/
def Outcome.machine : Outcome → Machine
  | .ok m => m
  | .halted m => m
  | .badInstr m _ => m
  | .assertFail => zeroMachine

/-- Whether the outcome is the bad-instruction exit. -/
def Outcome.isBad : Outcome → Bool
  | .badInstr _ _ => true
  | _ => false

/-- The PC value printed by the BAD INSTRUCTION message. -/
def Outcome.fault : Outcome → Int
  | .badInstr _ a => a
  | _ => 0

/-- Decode and execute one nonzero instruction word (already fetched, PC
    already advanced), following the three decode layers of main:
    top 4 bits, then top 10 bits, then top 7 bits, else bad instruction. -/
def execInstr (m1 : Machine) (i : Int) : Outcome :=
  let sm := (i / 512) % 8
  let sr := (i / 64) % 8
  let dm := (i / 8) % 8
  let dr := i % 8
  let op1 := i / 4096
  if op1 = 1 then
    match get_operand m1 ⟨sm, sr, 0, 0⟩ with
    | none => .assertFail
    | some (m2, src) =>
      match get_operand m2 ⟨dm, dr, 0, 0⟩ with
      | none => .assertFail
      | some (m3, dst) => .ok (movExec m3 src dst)
  else if op1 = 2 then
    match get_operand m1 ⟨sm, sr, 0, 0⟩ with
    | none => .assertFail
    | some (m2, src) =>
      match get_operand m2 ⟨dm, dr, 0, 0⟩ with
      | none => .assertFail
      | some (m3, dst) => .ok (cmpExec m3 src dst)
  else if op1 = 6 then
    match get_operand m1 ⟨sm, sr, 0, 0⟩ with
    | none => .assertFail
    | some (m2, src) =>
      match get_operand m2 ⟨dm, dr, 0, 0⟩ with
      | none => .assertFail
      | some (m3, dst) => .ok (addExec m3 src dst)
  else if op1 = 14 then
    match get_operand m1 ⟨sm, sr, 0, 0⟩ with
    | none => .assertFail
    | some (m2, src) =>
      match get_operand m2 ⟨dm, dr, 0, 0⟩ with
      | none => .assertFail
      | some (m3, dst) => .ok (subExec m3 src dst)
  else
    let op2 := i / 64
    if op2 = 4 then .ok (brExec m1 i)
    else if op2 = 12 then .ok (beqExec m1 i)
    else if op2 = 51 then
      match get_operand m1 ⟨dm, dr, 0, 0⟩ with
      | none => .assertFail
      | some (m2, dst) => .ok (aslExec m2 dst)
    else if op2 = 50 then
      match get_operand m1 ⟨dm, dr, 0, 0⟩ with
      | none => .assertFail
      | some (m2, dst) => .ok (asrExec m2 dst)
    else
      let op3 := i / 512
      if op3 = 63 then .ok (sobExec m1 i)
      else if op3 = 1 then .ok (bneExec m1 i)
      else .badInstr m1 (m1.reg 7 - 2)

/-- One iteration of the main while loop: fetch the word at the PC into the
    unsigned instruction variable, bump the executed and fetched counters,
    advance the PC with the 16-bit mask, halt on a zero word, otherwise
    decode and execute. -/
def step (m : Machine) : Outcome :=
  let i := (m.mem (wordIdx (m.reg 7))) % 4294967296
  let m1 := { m with instr_exec := m.instr_exec + 1, instr_fetch := m.instr_fetch + 1,
                     reg := Function.update m.reg 7 (mask16 (m.reg 7 + 2)) }
  if i = 0 then .halted m1 else execInstr m1 i

/-- Result of running the main loop. -/
inductive RunResult where
  | halted (m : Machine)
  | badInstr (m : Machine) (fault : Int)
  | assertFail
  | outOfFuel (m : Machine)

/-- The machine carried by a run result. -/
def RunResult.machine : RunResult → Machine
  | .halted m => m
  | .badInstr m _ => m
  | .assertFail => zeroMachine
  | .outOfFuel m => m

/-- Whether the run ended at the halt instruction. -/
def RunResult.isHalted : RunResult → Bool
  | .halted _ => true
  | _ => false

/-- The main loop with fuel. -/
def run : Nat → Machine → RunResult
  | 0, m => .outOfFuel m
  | n + 1, m =>
    match step m with
    | .ok m1 => run n m1
    | .halted m1 => .halted m1
    | .badInstr m1 a => .badInstr m1 a
    | .assertFail => .assertFail

/-- The process exit status: return 0 on halt, exit(-1) (status byte 255) on a
    bad instruction, SIGABRT (status 134) when an assert fires. -/
def exitCode : RunResult → Int
  | .halted _ => 0
  | .badInstr _ _ => 255
  | .assertFail => 134
  | .outOfFuel _ => 0

/- Helper lemmas shared by the claim theorems. -/

lemma mask16_nonneg (x : Int) : 0 ≤ mask16 x := Int.emod_nonneg x (by decide)

lemma mask16_lt (x : Int) : mask16 x < 65536 := Int.emod_lt_of_pos x (by decide)

lemma get_operand_frame (m : Machine) (p : AddrPhrase) (m2 : Machine) (p2 : AddrPhrase)
    (h : get_operand m p = some (m2, p2)) :
    m2.cc_n = m.cc_n ∧ m2.cc_z = m.cc_z ∧ m2.cc_v = m.cc_v ∧ m2.cc_c = m.cc_c ∧
    m2.mem = m.mem ∧ m2.words_written = m.words_written ∧
    m2.br_exec = m.br_exec ∧ m2.br_taken = m.br_taken ∧
    p2.mode = p.mode ∧ p2.reg = p.reg := by
  simp only [get_operand] at h
  split_ifs at h <;>
    first
      | exact Option.noConfusion h
      | (simp only [Option.some.injEq, Prod.mk.injEq] at h
         obtain ⟨hm, hp⟩ := h
         subst hm
         subst hp
         simp)

lemma execInstr_mov (m1 m2 m3 : Machine) (src dst : AddrPhrase) (i : Int)
    (hop : i / 4096 = 1)
    (hsrc : get_operand m1 ⟨(i / 512) % 8, (i / 64) % 8, 0, 0⟩ = some (m2, src))
    (hdst : get_operand m2 ⟨(i / 8) % 8, i % 8, 0, 0⟩ = some (m3, dst)) :
    execInstr m1 i = Outcome.ok (movExec m3 src dst) := by
  simp only [execInstr, hop, hsrc, hdst]
  norm_num

lemma execInstr_add (m1 m2 m3 : Machine) (src dst : AddrPhrase) (i : Int)
    (hop : i / 4096 = 6)
    (hsrc : get_operand m1 ⟨(i / 512) % 8, (i / 64) % 8, 0, 0⟩ = some (m2, src))
    (hdst : get_operand m2 ⟨(i / 8) % 8, i % 8, 0, 0⟩ = some (m3, dst)) :
    execInstr m1 i = Outcome.ok (addExec m3 src dst) := by
  simp only [execInstr, hop, hsrc, hdst]
  norm_num

lemma execInstr_sub (m1 m2 m3 : Machine) (src dst : AddrPhrase) (i : Int)
    (hop : i / 4096 = 14)
    (hsrc : get_operand m1 ⟨(i / 512) % 8, (i / 64) % 8, 0, 0⟩ = some (m2, src))
    (hdst : get_operand m2 ⟨(i / 8) % 8, i % 8, 0, 0⟩ = some (m3, dst)) :
    execInstr m1 i = Outcome.ok (subExec m3 src dst) := by
  simp only [execInstr, hop, hsrc, hdst]
  norm_num

lemma execInstr_br (m : Machine) (i : Int) (h : i / 64 = 4) :
    execInstr m i = Outcome.ok (brExec m i) := by
  have hop : i / 4096 = 0 := by omega
  simp only [execInstr, hop, h]
  norm_num

lemma execInstr_beq (m : Machine) (i : Int) (h : i / 64 = 12) :
    execInstr m i = Outcome.ok (beqExec m i) := by
  have hop : i / 4096 = 0 := by omega
  simp only [execInstr, hop, h]
  norm_num

lemma execInstr_asl (m1 m2 : Machine) (dst : AddrPhrase) (i : Int)
    (h : i / 64 = 51)
    (hdst : get_operand m1 ⟨(i / 8) % 8, i % 8, 0, 0⟩ = some (m2, dst)) :
    execInstr m1 i = Outcome.ok (aslExec m2 dst) := by
  have hop : i / 4096 = 0 := by omega
  simp only [execInstr, hop, h, hdst]
  norm_num

lemma execInstr_asr (m1 m2 : Machine) (dst : AddrPhrase) (i : Int)
    (h : i / 64 = 50)
    (hdst : get_operand m1 ⟨(i / 8) % 8, i % 8, 0, 0⟩ = some (m2, dst)) :
    execInstr m1 i = Outcome.ok (asrExec m2 dst) := by
  have hop : i / 4096 = 0 := by omega
  simp only [execInstr, hop, h, hdst]
  norm_num

lemma execInstr_sob (m : Machine) (i : Int) (h : i / 512 = 63) :
    execInstr m i = Outcome.ok (sobExec m i) := by
  have hop : i / 4096 = 7 := by omega
  have h2 : i / 64 ≠ 4 := by omega
  have h3 : i / 64 ≠ 12 := by omega
  have h4 : i / 64 ≠ 51 := by omega
  have h5 : i / 64 ≠ 50 := by omega
  simp only [execInstr, hop, h]
  norm_num [h2, h3, h4, h5]

lemma execInstr_bne (m : Machine) (i : Int) (h : i / 512 = 1) (h12 : i / 64 ≠ 12) :
    execInstr m i = Outcome.ok (bneExec m i) := by
  have hop : i / 4096 = 0 := by omega
  have h2 : i / 64 ≠ 4 := by omega
  have h4 : i / 64 ≠ 51 := by omega
  have h5 : i / 64 ≠ 50 := by omega
  have h6 : i / 512 ≠ 63 := by omega
  simp only [execInstr, hop, h]
  norm_num [h2, h4, h5, h6, h12]

/-- C10: resolving an operand in AutoIncrement mode asserts addr < 0200000 and
    value < 0200000; under the precondition that every register and memory word
    is below 2^16, both asserts hold and the abort (none) branch is unreachable. -/
theorem claim10_autoinc_asserts_hold (m : Machine) (p : AddrPhrase)
    (hmode : p.mode = 2)
    (hreg : ∀ j : Int, 0 ≤ m.reg j ∧ m.reg j < 65536)
    (hmem : ∀ a : Int, 0 ≤ m.mem a ∧ m.mem a < 65536) :
    (get_operand m p).isSome = true := by
  have hr := hreg p.reg
  have hm1 := hmem (wordIdx (m.reg p.reg))
  simp only [get_operand, hmode]
  norm_num
  split_ifs <;> simp_all

/-- C10 witness. -/
theorem claim10_witness : (get_operand zeroMachine ⟨2, 0, 0, 0⟩).isSome = true :=
  claim10_autoinc_asserts_hold zeroMachine ⟨2, 0, 0, 0⟩ rfl
    (fun _ => ⟨le_refl 0, show (0:Int) < 65536 by decide⟩)
    (fun _ => ⟨le_refl 0, show (0:Int) < 65536 by decide⟩)

/-- C7: branches-executed increments by one for every BR, BEQ, BNE, SOB
    regardless of outcome; branches-taken increments only when the condition
    holds (Z set for BEQ, Z clear for BNE, decremented register nonzero for
    SOB); for BR both counters increment together. -/
theorem claim7_branch_counters :
    (∀ m : Machine, ∀ i : Int, i / 64 = 4 →
       execInstr m i = Outcome.ok (brExec m i) ∧
       (brExec m i).br_exec = m.br_exec + 1 ∧
       (brExec m i).br_taken = m.br_taken + 1) ∧
    (∀ m : Machine, ∀ i : Int, i / 64 = 12 →
       execInstr m i = Outcome.ok (beqExec m i) ∧
       (beqExec m i).br_exec = m.br_exec + 1 ∧
       (m.cc_z ≠ 0 → (beqExec m i).br_taken = m.br_taken + 1) ∧
       (m.cc_z = 0 → (beqExec m i).br_taken = m.br_taken)) ∧
    (∀ m : Machine, ∀ i : Int, i / 512 = 1 → i / 64 ≠ 12 →
       execInstr m i = Outcome.ok (bneExec m i) ∧
       (bneExec m i).br_exec = m.br_exec + 1 ∧
       (m.cc_z = 0 → (bneExec m i).br_taken = m.br_taken + 1) ∧
       (m.cc_z ≠ 0 → (bneExec m i).br_taken = m.br_taken)) ∧
    (∀ m : Machine, ∀ i : Int, i / 512 = 63 →
       execInstr m i = Outcome.ok (sobExec m i) ∧
       (sobExec m i).br_exec = m.br_exec + 1 ∧
       (m.reg ((i / 64) % 8) - 1 ≠ 0 → (sobExec m i).br_taken = m.br_taken + 1) ∧
       (m.reg ((i / 64) % 8) - 1 = 0 → (sobExec m i).br_taken = m.br_taken)) := by
  refine ⟨?_, ?_, ?_, ?_⟩
  · intro m i h
    exact ⟨execInstr_br m i h, rfl, rfl⟩
  · intro m i h
    refine ⟨execInstr_beq m i h, ?_, ?_, ?_⟩
    · simp only [beqExec, apply_ite (Machine.br_exec)]
      simp
    · intro hz
      simp [beqExec, hz]
    · intro hz
      simp [beqExec, hz]
  · intro m i h h12
    refine ⟨execInstr_bne m i h h12, ?_, ?_, ?_⟩
    · simp only [bneExec, apply_ite (Machine.br_exec)]
      simp
    · intro hz
      simp [bneExec, hz]
    · intro hz
      simp [bneExec, hz]
  · intro m i h
    refine ⟨execInstr_sob m i h, ?_, ?_, ?_⟩
    · simp only [sobExec, apply_ite (Machine.br_exec)]
      simp
    · intro hnz
      simp [sobExec, hnz]
    · intro hz
      simp [sobExec, hz]

/-- C7 witness. -/
theorem claim7_witness :
    execInstr zeroMachine 256 = Outcome.ok (brExec zeroMachine 256) ∧
    (brExec zeroMachine 256).br_exec = 1 ∧
    (brExec zeroMachine 256).br_taken = 1 :=
  claim7_branch_counters.1 zeroMachine 256 (by decide)

/-- C3: BEQ uses its low byte unsigned (no sign extension) and stores
    PC + 2*offset when Z is set; BNE sign-extends and stores PC + 2*offset
    when Z is clear; BR sign-extends and stores (PC + 2*offset) masked; for
    any word whose low byte has bit 7 set the taken BEQ target differs from
    the BNE target with the same offset field. -/
theorem claim3_beq_unsigned_offset :
    (∀ m : Machine, ∀ i : Int, i / 64 = 12 →
       execInstr m i = Outcome.ok (beqExec m i) ∧
       (m.cc_z ≠ 0 → (beqExec m i).reg 7 = m.reg 7 + 2 * (i % 256)) ∧
       (m.cc_z = 0 → (beqExec m i).reg 7 = m.reg 7)) ∧
    (∀ m : Machine, ∀ i : Int, i / 512 = 1 → i / 64 ≠ 12 →
       execInstr m i = Outcome.ok (bneExec m i) ∧
       (m.cc_z = 0 → (bneExec m i).reg 7 = m.reg 7 + 2 * se8 (i % 256)) ∧
       (m.cc_z ≠ 0 → (bneExec m i).reg 7 = m.reg 7)) ∧
    (∀ m : Machine, ∀ i : Int, i / 64 = 4 →
       execInstr m i = Outcome.ok (brExec m i) ∧
       (brExec m i).reg 7 = mask16 (m.reg 7 + 2 * se8 (i % 256))) ∧
    (∀ pc i : Int, 128 ≤ i % 256 →
       pc + 2 * (i % 256) ≠ pc + 2 * se8 (i % 256)) := by
  refine ⟨?_, ?_, ?_, ?_⟩
  · intro m i h
    refine ⟨execInstr_beq m i h, ?_, ?_⟩
    · intro hz
      simp [beqExec, hz]
    · intro hz
      simp [beqExec, hz]
  · intro m i h h12
    refine ⟨execInstr_bne m i h h12, ?_, ?_⟩
    · intro hz
      simp [bneExec, hz]
    · intro hz
      simp [bneExec, hz]
  · intro m i h
    exact ⟨execInstr_br m i h, by simp [brExec]⟩
  · intro pc i h
    have he : i % 256 % 256 = i % 256 := Int.emod_emod_of_dvd i dvd_rfl
    simp only [se8, he]
    omega

/-- A machine with the Z flag set and the PC at 2, for the C3 witness. -/
def beqM : Machine :=
  { zeroMachine with cc_z := 1, reg := Function.update zeroMachine.reg 7 2 }

/-- C3 witness: a taken BEQ with offset field 0200 lands 512 bytes past the
    corresponding taken BNE target. -/
theorem claim3_witness :
    (beqExec beqM 800).reg 7 = beqM.reg 7 + 2 * ((800:Int) % 256) ∧
    (2:Int) + 2 * ((896:Int) % 256) ≠ 2 + 2 * se8 ((896:Int) % 256) :=
  ⟨(claim3_beq_unsigned_offset.1 beqM 800 (by decide)).2.1 (by decide),
   claim3_beq_unsigned_offset.2.2.2 2 896 (by decide)⟩

/-- C5: for every MOV, N is the sign bit of the resolved source value, Z is
    the source-is-zero test, V is cleared, C keeps its prior value; the value
    goes to destination memory at the resolved address (counting one data
    word written) exactly when the destination mode is AutoIncrement (2), and
    otherwise to the destination register. -/
theorem claim5_mov_semantics (m1 m2 m3 : Machine) (src dst : AddrPhrase) (i : Int)
    (hop : i / 4096 = 1)
    (hsrc : get_operand m1 ⟨(i / 512) % 8, (i / 64) % 8, 0, 0⟩ = some (m2, src))
    (hdst : get_operand m2 ⟨(i / 8) % 8, i % 8, 0, 0⟩ = some (m3, dst)) :
    execInstr m1 i = Outcome.ok (movExec m3 src dst) ∧
    dst.mode = (i / 8) % 8 ∧
    (movExec m3 src dst).cc_n = bit15 src.value ∧
    (movExec m3 src dst).cc_z = zbit src.value ∧
    (movExec m3 src dst).cc_v = 0 ∧
    (movExec m3 src dst).cc_c = m1.cc_c ∧
    (dst.mode = 2 →
       (movExec m3 src dst).mem = Function.update m1.mem (wordIdx dst.addr) src.value ∧
       (movExec m3 src dst).words_written = m1.words_written + 1 ∧
       (movExec m3 src dst).reg = m3.reg) ∧
    (dst.mode ≠ 2 →
       (movExec m3 src dst).reg = Function.update m3.reg dst.reg src.value ∧
       (movExec m3 src dst).mem = m1.mem ∧
       (movExec m3 src dst).words_written = m1.words_written) := by
  obtain ⟨-, -, -, hc2, hmem2, hww2, -, -, hmode2, -⟩ := get_operand_frame _ _ _ _ hsrc
  obtain ⟨-, -, -, hc3, hmem3, hww3, -, -, hmode3, -⟩ := get_operand_frame _ _ _ _ hdst
  refine ⟨execInstr_mov m1 m2 m3 src dst i hop hsrc hdst, ?_, ?_, ?_, ?_, ?_, ?_, ?_⟩
  · simpa using hmode3
  · simp only [movExec, apply_ite (Machine.cc_n)]
    simp
  · simp only [movExec, apply_ite (Machine.cc_z)]
    simp
  · simp only [movExec, apply_ite (Machine.cc_v)]
    simp
  · simp only [movExec, apply_ite (Machine.cc_c)]
    simp [hc3, hc2]
  · intro h2
    refine ⟨?_, ?_, ?_⟩ <;> simp [movExec, h2, hmem3, hmem2, hww3, hww2]
  · intro h2
    refine ⟨?_, ?_, ?_⟩ <;> simp [movExec, h2, hmem3, hmem2, hww3, hww2]

/-- C5 witness: MOV with Register source and destination modes. -/
theorem claim5_witness :
    execInstr zeroMachine 4160 = Outcome.ok
      (movExec zeroMachine ⟨0, 1, 0, 0⟩ ⟨0, 0, 0, 0⟩) ∧
    (movExec zeroMachine ⟨0, 1, 0, 0⟩ ⟨0, 0, 0, 0⟩).cc_v = 0 :=
  ⟨(claim5_mov_semantics zeroMachine zeroMachine zeroMachine ⟨0, 1, 0, 0⟩ ⟨0, 0, 0, 0⟩ 4160
      (by decide) rfl rfl).1,
   (claim5_mov_semantics zeroMachine zeroMachine zeroMachine ⟨0, 1, 0, 0⟩ ⟨0, 0, 0, 0⟩ 4160
      (by decide) rfl rfl).2.2.2.2.1⟩

/-- A machine for the C9 concrete part: register 1 holds 10 and memory word 4
    holds 99, so an ASL with AutoDecrement destination on register 1 shifts
    the post-resolution register value 8, not the resolved operand 99. -/
def aslM : Machine :=
  { zeroMachine with reg := Function.update zeroMachine.reg 1 10,
                     mem := Function.update zeroMachine.mem 4 99 }

/-- C9: ASL and ASR shift the value read from the destination register as it
    stands after operand resolution (with its side effects already applied),
    not the resolved operand value; the C flag comes from the resolved operand
    value; the result goes to the register and memory is never written; and
    the shifted quantity can differ from the resolved memory operand. -/
theorem claim9_shift_register_source :
    (∀ m1 m2 : Machine, ∀ dst : AddrPhrase, ∀ i : Int, i / 64 = 51 →
       get_operand m1 ⟨(i / 8) % 8, i % 8, 0, 0⟩ = some (m2, dst) →
       execInstr m1 i = Outcome.ok (aslExec m2 dst) ∧
       (aslExec m2 dst).reg = Function.update m2.reg dst.reg (mask16 (2 * m2.reg dst.reg)) ∧
       (aslExec m2 dst).mem = m1.mem ∧
       (aslExec m2 dst).cc_c = bit15 dst.value) ∧
    (∀ m1 m2 : Machine, ∀ dst : AddrPhrase, ∀ i : Int, i / 64 = 50 →
       get_operand m1 ⟨(i / 8) % 8, i % 8, 0, 0⟩ = some (m2, dst) →
       execInstr m1 i = Outcome.ok (asrExec m2 dst) ∧
       (asrExec m2 dst).reg = Function.update m2.reg dst.reg (mask16 ((se16 (m2.reg dst.reg)) / 2)) ∧
       (asrExec m2 dst).mem = m1.mem ∧
       (asrExec m2 dst).cc_c = bit0 dst.value) ∧
    ((execInstr aslM 3297).machine.reg 1 = 16 ∧
     (execInstr aslM 3297).machine.mem 4 = 99 ∧
     (16:Int) ≠ mask16 (2 * 99)) := by
  refine ⟨?_, ?_, by decide, by decide, by decide⟩
  · intro m1 m2 dst i h hdst
    obtain ⟨-, -, -, -, hmem2, -, -, -, -, -⟩ := get_operand_frame _ _ _ _ hdst
    exact ⟨execInstr_asl m1 m2 dst i h hdst, rfl, by simp [aslExec, hmem2], rfl⟩
  · intro m1 m2 dst i h hdst
    obtain ⟨-, -, -, -, hmem2, -, -, -, -, -⟩ := get_operand_frame _ _ _ _ hdst
    exact ⟨execInstr_asr m1 m2 dst i h hdst, rfl, by simp [asrExec, hmem2], rfl⟩

/-- C9 witness: ASL with Register destination mode. -/
theorem claim9_witness :
    execInstr zeroMachine 3264 = Outcome.ok (aslExec zeroMachine ⟨0, 0, 0, 0⟩) ∧
    (aslExec zeroMachine ⟨0, 0, 0, 0⟩).cc_c = bit15 (0:Int) :=
  ⟨(claim9_shift_register_source.1 zeroMachine zeroMachine ⟨0, 0, 0, 0⟩ 3264
      (by decide) rfl).1,
   (claim9_shift_register_source.1 zeroMachine zeroMachine ⟨0, 0, 0, 0⟩ 3264
      (by decide) rfl).2.2.2⟩

lemma execInstr_bad (m1 : Machine) (i : Int)
    (h1 : i / 4096 ≠ 1) (h2 : i / 4096 ≠ 2) (h3 : i / 4096 ≠ 6) (h4 : i / 4096 ≠ 14)
    (h5 : i / 64 ≠ 4) (h6 : i / 64 ≠ 12) (h7 : i / 64 ≠ 51) (h8 : i / 64 ≠ 50)
    (h9 : i / 512 ≠ 63) (h10 : i / 512 ≠ 1) :
    execInstr m1 i = Outcome.badInstr m1 (m1.reg 7 - 2) := by
  simp [execInstr, h1, h2, h3, h4, h5, h6, h7, h8, h9, h10]

/-- C6: a fetched nonzero word matching none of the three decode layers makes
    the simulator report the fault address PC - 2 (PC already advanced by the
    fetch) and exit with a nonzero status; the zero word halts with exit
    status 0. -/
theorem claim6_bad_instruction_exit :
    (∀ m : Machine, ∀ i : Int,
       i = (m.mem (wordIdx (m.reg 7))) % 4294967296 → i ≠ 0 →
       i / 4096 ≠ 1 → i / 4096 ≠ 2 → i / 4096 ≠ 6 → i / 4096 ≠ 14 →
       i / 64 ≠ 4 → i / 64 ≠ 12 → i / 64 ≠ 51 → i / 64 ≠ 50 →
       i / 512 ≠ 63 → i / 512 ≠ 1 →
       (step m).isBad = true ∧
       (step m).fault = mask16 (m.reg 7 + 2) - 2 ∧
       (step m).machine.reg 7 = mask16 (m.reg 7 + 2) ∧
       exitCode (run 1 m) = 255 ∧ (255:Int) ≠ 0) ∧
    (∀ m : Machine,
       (m.mem (wordIdx (m.reg 7))) % 4294967296 = 0 →
       (run 1 m).isHalted = true ∧ exitCode (run 1 m) = 0) := by
  constructor
  · intro m i hi hne h1 h2 h3 h4 h5 h6 h7 h8 h9 h10
    have hstep : step m = Outcome.badInstr
        { m with instr_exec := m.instr_exec + 1, instr_fetch := m.instr_fetch + 1,
                 reg := Function.update m.reg 7 (mask16 (m.reg 7 + 2)) }
        (Function.update m.reg 7 (mask16 (m.reg 7 + 2)) 7 - 2) := by
      rw [step, ← hi, if_neg hne,
          execInstr_bad _ i h1 h2 h3 h4 h5 h6 h7 h8 h9 h10]
    have hrun : run 1 m = RunResult.badInstr
        { m with instr_exec := m.instr_exec + 1, instr_fetch := m.instr_fetch + 1,
                 reg := Function.update m.reg 7 (mask16 (m.reg 7 + 2)) }
        (Function.update m.reg 7 (mask16 (m.reg 7 + 2)) 7 - 2) := by
      show (match step m with
            | .ok m1 => run 0 m1
            | .halted m1 => RunResult.halted m1
            | .badInstr m1 a => RunResult.badInstr m1 a
            | .assertFail => RunResult.assertFail) = _
      rw [hstep]
    rw [hstep, hrun]
    refine ⟨rfl, ?_, ?_, rfl, by decide⟩
    · simp [Outcome.fault]
    · simp [Outcome.machine]
  · intro m h0
    have hstep : step m = Outcome.halted
        { m with instr_exec := m.instr_exec + 1, instr_fetch := m.instr_fetch + 1,
                 reg := Function.update m.reg 7 (mask16 (m.reg 7 + 2)) } := by
      rw [step, h0, if_pos rfl]
    have hrun : run 1 m = RunResult.halted
        { m with instr_exec := m.instr_exec + 1, instr_fetch := m.instr_fetch + 1,
                 reg := Function.update m.reg 7 (mask16 (m.reg 7 + 2)) } := by
      show (match step m with
            | .ok m1 => run 0 m1
            | .halted m1 => RunResult.halted m1
            | .badInstr m1 a => RunResult.badInstr m1 a
            | .assertFail => RunResult.assertFail) = _
      rw [hstep]
    rw [hrun]
    exact ⟨rfl, rfl⟩

/-- C6 witness: the word 0777 matches no decode layer; an all-zero memory halts. -/
theorem claim6_witness :
    ((step (initMachine [511])).isBad = true ∧
     (step (initMachine [511])).fault = mask16 (0 + 2) - 2 ∧
     exitCode (run 1 (initMachine [511])) = 255) ∧
    ((run 1 (initMachine [])).isHalted = true ∧ exitCode (run 1 (initMachine [])) = 0) := by
  have hbad := claim6_bad_instruction_exit.1 (initMachine [511]) 511 (by decide) (by decide)
    (by decide) (by decide) (by decide) (by decide) (by decide) (by decide) (by decide)
    (by decide) (by decide) (by decide)
  have hhalt := claim6_bad_instruction_exit.2 (initMachine []) (by decide)
  exact ⟨⟨hbad.1, hbad.2.1, hbad.2.2.2.1⟩, hhalt⟩

/-- A machine about to execute MOV with AutoIncrementDeferred source on
    register 1 holding 0177776, for the C1 counterexample. -/
def incDefM : Machine :=
  { zeroMachine with reg := Function.update zeroMachine.reg 1 65534,
                     mem := memOfList [5696] }

/-- C1 counterexample: one execution step (a MOV whose source resolves in
    AutoIncrementDeferred mode) leaves register 1 holding 65536, which is not
    in the range 0..65535, because the source increments that register without
    the 16-bit mask. -/
theorem claim1_counterexample :
    (step incDefM).machine.reg 1 = 65536 ∧
    ¬ ((step incDefM).machine.reg 1 ≤ 65535) := by
  constructor
  · decide
  · decide

/-- C1 amended: the 16-bit mask is applied to the register updated by
    AutoIncrement and AutoDecrement resolution, to the PC stored by BR and by
    any SOB step starting from an in-range PC, to the halt-case PC advance,
    and to the ADD/SUB/ASL/ASR results written to the destination register;
    the claim fails for AutoIncrementDeferred/AutoDecrementDeferred register
    updates, taken BEQ/BNE targets and SOB register decrements, which the
    source stores unmasked. -/
theorem claim1_amended_masking :
    (∀ m : Machine, ∀ p : AddrPhrase, ∀ m2 : Machine, ∀ p2 : AddrPhrase,
       p.mode = 2 → get_operand m p = some (m2, p2) →
       0 ≤ m2.reg p.reg ∧ m2.reg p.reg < 65536) ∧
    (∀ m : Machine, ∀ p : AddrPhrase, ∀ m2 : Machine, ∀ p2 : AddrPhrase,
       p.mode = 4 → get_operand m p = some (m2, p2) →
       0 ≤ m2.reg p.reg ∧ m2.reg p.reg < 65536) ∧
    (∀ m : Machine, ∀ i : Int, i / 64 = 4 →
       0 ≤ (execInstr m i).machine.reg 7 ∧ (execInstr m i).machine.reg 7 < 65536) ∧
    (∀ m : Machine, ∀ i : Int, i / 512 = 63 → 0 ≤ m.reg 7 → m.reg 7 < 65536 →
       0 ≤ (execInstr m i).machine.reg 7 ∧ (execInstr m i).machine.reg 7 < 65536) ∧
    (∀ m : Machine, (m.mem (wordIdx (m.reg 7))) % 4294967296 = 0 →
       0 ≤ (step m).machine.reg 7 ∧ (step m).machine.reg 7 < 65536) ∧
    (∀ m : Machine, ∀ src dst : AddrPhrase,
       (0 ≤ (addExec m src dst).reg dst.reg ∧ (addExec m src dst).reg dst.reg < 65536) ∧
       (0 ≤ (subExec m src dst).reg dst.reg ∧ (subExec m src dst).reg dst.reg < 65536) ∧
       (0 ≤ (aslExec m dst).reg dst.reg ∧ (aslExec m dst).reg dst.reg < 65536) ∧
       (0 ≤ (asrExec m dst).reg dst.reg ∧ (asrExec m dst).reg dst.reg < 65536)) := by
  refine ⟨?_, ?_, ?_, ?_, ?_, ?_⟩
  · intro m p m2 p2 hmode h
    simp only [get_operand, hmode] at h
    norm_num at h
    split_ifs at h <;>
      (obtain ⟨-, -, hm, -⟩ := h
       subst hm
       simpa using ⟨mask16_nonneg _, mask16_lt _⟩)
  · intro m p m2 p2 hmode h
    simp only [get_operand, hmode] at h
    norm_num at h
    obtain ⟨hm, -⟩ := h
    subst hm
    simpa using ⟨mask16_nonneg _, mask16_lt _⟩
  · intro m i h
    rw [execInstr_br m i h]
    simpa [brExec, Outcome.machine] using ⟨mask16_nonneg _, mask16_lt _⟩
  · intro m i h hpc0 hpc1
    rw [execInstr_sob m i h]
    simp only [sobExec, Outcome.machine]
    split_ifs with htaken
    · simpa using ⟨mask16_nonneg _, mask16_lt _⟩
    · simp only [Function.update_apply] at htaken ⊢
      by_cases h7 : (7:Int) = (i / 64) % 8
      · simp only [if_pos h7] at htaken ⊢
        simp at htaken
        omega
      · simp only [if_neg h7]
        exact ⟨hpc0, hpc1⟩
  · intro m h0
    have hstep : step m = Outcome.halted
        { m with instr_exec := m.instr_exec + 1, instr_fetch := m.instr_fetch + 1,
                 reg := Function.update m.reg 7 (mask16 (m.reg 7 + 2)) } := by
      rw [step, h0, if_pos rfl]
    rw [hstep]
    simpa [Outcome.machine] using ⟨mask16_nonneg _, mask16_lt _⟩
  · intro m src dst
    refine ⟨?_, ?_, ?_, ?_⟩ <;>
      simpa [addExec, subExec, aslExec, asrExec] using ⟨mask16_nonneg _, mask16_lt _⟩

/-- C1 amended witness: a BR step lands on a masked PC. -/
theorem claim1_amended_witness :
    0 ≤ (execInstr zeroMachine 256).machine.reg 7 ∧
    (execInstr zeroMachine 256).machine.reg 7 < 65536 :=
  claim1_amended_masking.2.2.1 zeroMachine 256 (by decide)

/-- The C2 example program: MOV immediate 5 into R0 (012700 5), ADD immediate
    3 to R0 (062700 3), then the halt word 0. -/
def movAddProg : List Int := [5568, 5, 26048, 3, 0]

/-- C2 counterexample: the halt word IS counted by the instructions-executed
    counter, because main increments it at every fetch before testing for the
    zero word: the example program ends with the counter at 3, not 2, and the
    empty input stream ends with it at 1, not 0. -/
theorem claim2_counterexample :
    (run 10 (initMachine movAddProg)).machine.instr_exec = 3 ∧
    (run 10 (initMachine movAddProg)).machine.instr_exec ≠ 2 ∧
    (run 2 (initMachine [])).machine.instr_exec = 1 ∧
    (run 2 (initMachine [])).machine.instr_exec ≠ 0 := by
  refine ⟨by decide, by decide, by decide, by decide⟩

/-- C2 amended: the halt word is counted in the instructions-executed
    statistic; the example program halts with R0 = 8, instructions-executed
    3 (the two real instructions plus the halt fetch), and 0 branches, and
    the empty input stream halts at once with 1 instruction executed. -/
theorem claim2_amended_halt_counted :
    (run 10 (initMachine movAddProg)).isHalted = true ∧
    (run 10 (initMachine movAddProg)).machine.reg 0 = 8 ∧
    (run 10 (initMachine movAddProg)).machine.instr_exec = 3 ∧
    (run 10 (initMachine movAddProg)).machine.br_exec = 0 ∧
    (run 10 (initMachine movAddProg)).machine.br_taken = 0 ∧
    (run 2 (initMachine [])).isHalted = true ∧
    (run 2 (initMachine [])).machine.instr_exec = 1 := by
  refine ⟨by decide, by decide, by decide, by decide, by decide, by decide, by decide⟩

/-- The offset reading that claim C8 states: the low 6 bits of the
    instruction, sign-extended from 6 bits.  Second definition written from
    the claim wording, for comparison with the sobExec of the source. -/
def claimedSobOffset (i : Int) : Int :=
  if 32 ≤ i % 64 then i % 64 - 64 else i % 64

/-- A machine mid-step (PC already advanced to 2, register 0 holding 5) about
    to execute the SOB word 077077 whose offset field is 63, for the C8
    counterexample. -/
def sobM : Machine :=
  { zeroMachine with reg := Function.update (Function.update zeroMachine.reg 0 5) 7 2 }

/-- C8 counterexample: for the SOB word 077077 (offset field 63, register 0
    holding 5 so the branch is taken from PC 2), the source stores the PC
    65412 = (2 - 2*63) mod 65536, while the claimed sign-extended-6-bit
    offset reading predicts PC 2 - 2*(-1) = 4. -/
theorem claim8_counterexample :
    (execInstr sobM 32319).machine.reg 7 = 65412 ∧
    sobM.reg 7 - 2 * claimedSobOffset 32319 = 4 ∧
    (65412:Int) ≠ 4 := by
  refine ⟨by decide, by decide, by decide⟩

/-- C8 amended: SOB decrements its operand register by one; the offset is the
    UNSIGNED low 6 bits (the byte sign extension the source applies never
    changes a 6-bit value); when the decremented value is nonzero the stored
    PC is (PC - 2*offset) masked to 16 bits, otherwise the PC is unchanged;
    a SOB with the register initially 1 never branches and with the register
    initially 2 branches exactly once before falling through. -/
theorem claim8_amended_sob :
    (∀ m : Machine, ∀ i : Int, i / 512 = 63 → (i / 64) % 8 ≠ 7 →
       execInstr m i = Outcome.ok (sobExec m i) ∧
       se8 (i % 64) = i % 64 ∧
       (sobExec m i).reg ((i / 64) % 8) = m.reg ((i / 64) % 8) - 1 ∧
       (m.reg ((i / 64) % 8) - 1 ≠ 0 →
          (sobExec m i).reg 7 = mask16 (m.reg 7 - 2 * (i % 64))) ∧
       (m.reg ((i / 64) % 8) - 1 = 0 → (sobExec m i).reg 7 = m.reg 7)) ∧
    ((run 5 { zeroMachine with
               mem := memOfList [32257, 0],
               reg := Function.update zeroMachine.reg 0 1 }).isHalted = true ∧
     (run 5 { zeroMachine with
               mem := memOfList [32257, 0],
               reg := Function.update zeroMachine.reg 0 1 }).machine.br_exec = 1 ∧
     (run 5 { zeroMachine with
               mem := memOfList [32257, 0],
               reg := Function.update zeroMachine.reg 0 1 }).machine.br_taken = 0) ∧
    ((run 5 { zeroMachine with
               mem := memOfList [32257, 0],
               reg := Function.update zeroMachine.reg 0 2 }).isHalted = true ∧
     (run 5 { zeroMachine with
               mem := memOfList [32257, 0],
               reg := Function.update zeroMachine.reg 0 2 }).machine.br_exec = 2 ∧
     (run 5 { zeroMachine with
               mem := memOfList [32257, 0],
               reg := Function.update zeroMachine.reg 0 2 }).machine.br_taken = 1) := by
  refine ⟨?_, ⟨by decide, by decide, by decide⟩, ⟨by decide, by decide, by decide⟩⟩
  intro m i h hsr
  have hse : se8 (i % 64) = i % 64 := by
    have h1 : 0 ≤ i % 64 := Int.emod_nonneg i (by decide)
    have h2 : i % 64 < 64 := Int.emod_lt_of_pos i (by decide)
    have h3 : i % 64 % 256 = i % 64 := by omega
    simp only [se8, h3]
    omega
  have h7 : (7:Int) ≠ (i / 64) % 8 := fun he => hsr he.symm
  refine ⟨execInstr_sob m i h, hse, ?_, ?_, ?_⟩
  · simp only [sobExec]
    split_ifs with htaken
    · simp [Function.update_apply, hsr]
    · simp [Function.update_apply]
  · intro hnz
    simp only [sobExec, hse]
    rw [if_pos]
    · simp [Function.update_apply, h7]
    · simpa [Function.update_apply] using hnz
  · intro hz
    simp only [sobExec]
    rw [if_neg]
    · simp [Function.update_apply, h7]
    · simpa [Function.update_apply] using hz

/-- C8 amended witness: a SOB on register 0 holding 2 with offset 1 branches
    back by 2 bytes. -/
theorem claim8_amended_witness :
    (sobExec sobM 32257).reg 0 = sobM.reg 0 - 1 ∧
    (sobExec sobM 32257).reg 7 = mask16 (sobM.reg 7 - 2 * ((32257:Int) % 64)) := by
  have h := claim8_amended_sob.1 sobM 32257 (by decide) (by decide)
  exact ⟨h.2.2.1, h.2.2.2.1 (by decide)⟩

/-- The reference SUB condition-code algorithm in the words of the claim:
    C is borrow bit 16 of the unmasked subtraction, V is set exactly when the
    operand sign bits differ and the result sign bit equals the subtrahend
    source sign bit, N and Z come from the masked result.  Second definition
    written from the claim wording, to be compared with subExec. -/
def referenceSubFlags (s d : Int) : Nat × Nat × Nat × Nat :=
  (bit15 (mask16 (d - s)), zbit (mask16 (d - s)),
   if bit15 s ≠ bit15 d ∧ bit15 s = bit15 (mask16 (d - s)) then 1 else 0,
   bit16 (d - s))

/-- A machine about to run ADD R1,R0 (060100) then SUB R2,R0 (160200), with
    R1 = a and R0 = R2 = b. -/
def addSubM (a b : Int) : Machine :=
  { zeroMachine with
      mem := memOfList [24640, 57472, 0],
      reg := Function.update (Function.update (Function.update zeroMachine.reg 0 b) 1 a) 2 b }

/-- C4: ADD of a into b followed by SUB of the original b from the result
    leaves the destination register holding a again modulo 2^16, and the
    flags after the SUB equal the reference SUB algorithm applied to that
    subtraction. -/
theorem claim4_add_sub_roundtrip (a b : Int)
    (ha0 : 0 ≤ a) (ha1 : a < 65536) (hb0 : 0 ≤ b) (hb1 : b < 65536) :
    (step ((step (addSubM a b)).machine)).machine.reg 0 = a ∧
    ((step ((step (addSubM a b)).machine)).machine.cc_n,
     (step ((step (addSubM a b)).machine)).machine.cc_z,
     (step ((step (addSubM a b)).machine)).machine.cc_v,
     (step ((step (addSubM a b)).machine)).machine.cc_c)
      = referenceSubFlags b (mask16 (a + b)) := by
  constructor
  · have hreg0 : (step ((step (addSubM a b)).machine)).machine.reg 0
        = mask16 (mask16 (a + b) - b) := rfl
    rw [hreg0]
    simp only [mask16]
    omega
  · rfl

/-- C4 witness at a = 3, b = 5. -/
theorem claim4_witness :
    (step ((step (addSubM 3 5)).machine)).machine.reg 0 = 3 ∧
    ((step ((step (addSubM 3 5)).machine)).machine.cc_n,
     (step ((step (addSubM 3 5)).machine)).machine.cc_z,
     (step ((step (addSubM 3 5)).machine)).machine.cc_v,
     (step ((step (addSubM 3 5)).machine)).machine.cc_c)
      = referenceSubFlags 5 (mask16 (3 + 5)) :=
  claim4_add_sub_roundtrip 3 5 (by decide) (by decide) (by decide) (by decide)
